import Mathlib

/-!
Verification of the casadi `Sqpmethod` SQP driver (`sqpmethod.cpp`).

The driver's state and one iteration of `Sqpmethod::solve` are embedded as
executable Lean functions.  Vectors are `List ℚ`, matrices are dense
`List (List ℚ)`, and the `double` arithmetic of the source is modelled over
`ℚ` (`std::fmin`/`std::fmax` become `min`/`max`).  The injected callables
(`nlp_jac_fg`, `nlp_hess_l`, `nlp_fg`), the QP subsolver and the user
callback are oracles supplied as plain functions; a failing callable is
`none`.  Loops are fuel-indexed, with `none` meaning the fuel ran out.
-/

/-- Dense matrix as a list of rows. -/
abbrev Mat := List (List ℚ)

/-- Entry of a dense matrix, `0` outside the stored pattern. -/
def entry (B : Mat) (i j : ℕ) : ℚ := (B.getD i []).getD j 0

/-- Kernel `casadi_axpy(n, a, x, y)`: `y += a · x` elementwise (over the common length). -/
def casadi_axpy (a : ℚ) (x y : List ℚ) : List ℚ :=
  List.zipWith (fun xi yi => yi + a * xi) x y

/-- Kernel `casadi_scal(n, a, x)`: `x *= a`. -/
def casadi_scal (a : ℚ) (x : List ℚ) : List ℚ := x.map (fun v => a * v)

/-- Kernel `casadi_dot(n, x, y)`. -/
def casadi_dot (n : ℕ) (x y : List ℚ) : ℚ :=
  ((List.range n).map (fun i => x.getD i 0 * y.getD i 0)).sum

/-- Kernel `casadi_norm_inf(n, x) = max_i |x_i|`. -/
def casadi_norm_inf (n : ℕ) (x : List ℚ) : ℚ :=
  (List.range n).foldl (fun acc i => max acc |x.getD i 0|) 0

/-- Kernel `casadi_max_viol(n, z, lb, ub) = max_i max(lb_i − z_i, z_i − ub_i, 0)`. -/
def casadi_max_viol (n : ℕ) (z lb ub : List ℚ) : ℚ :=
  (List.range n).foldl
    (fun acc i => max acc (max (lb.getD i 0 - z.getD i 0) (z.getD i 0 - ub.getD i 0))) 0

/-- Modelled from the spec: `vfmax(v, n, acc) → max(acc, maxᵢ vᵢ)` over the first
`n` entries (`casadi_vfmax` lives in the runtime headers, which are not under
`src/`); a non-positive `n` leaves the accumulator untouched. -/
def casadi_vfmax (v : List ℚ) (n : Int) (acc : ℚ) : ℚ :=
  (v.take n.toNat).foldl max acc

/-- Modelled from the spec: `lb_eig(sp, B) → min_i (B_ii − Σ_{j≠i} |B_ij|)`, the
Gershgorin lower eigenvalue bound (`casadi_lb_eig` lives in the runtime headers,
which are not under `src/`).  Dense model. -/
def casadi_lb_eig (B : Mat) : ℚ :=
  let g := fun i => entry B i i -
    (((List.range (B.getD i []).length).filter (fun j => j ≠ i)).map
      (fun j => |entry B i j|)).sum
  (List.range B.length).foldl (fun acc i => min acc (g i)) (g 0)

/-- Modelled from the spec: `regularize(sp, B, r)`: `B_ii += r` on the diagonal
(`casadi_regularize` lives in the runtime headers, which are not under `src/`). -/
def casadi_regularize (B : Mat) (r : ℚ) : Mat :=
  B.mapIdx (fun i row => row.mapIdx (fun j v => if j = i then v + r else v))

/-- Modelled from the spec: `bfgs_reset(sp, B)` writes the identity over `B`
(`casadi_bfgs_reset` lives in the runtime headers, which are not under `src/`).
Dense model: the identity matrix. -/
def idMat (n : ℕ) : Mat :=
  (List.range n).map (fun i => (List.range n).map (fun j => if j = i then (1 : ℚ) else 0))

/-- Kernel `casadi_mv(A, sp, x, y, tr = true)`: `y += Aᵀ x`, used for the Lagrangian
gradient accumulation.  Dense model. -/
def mvT (A : Mat) (x y : List ℚ) : List ℚ :=
  (List.range y.length).map (fun j =>
    y.getD j 0 + ((List.range A.length).map (fun i => entry A i j * x.getD i 0)).sum)

/-- Kernel `casadi_bilin(B, sp, x, y) → xᵀ B y`.  Dense model. -/
def casadi_bilin (B : Mat) (x y : List ℚ) : ℚ :=
  ((List.range B.length).map (fun i =>
    x.getD i 0 * casadi_dot (B.getD i []).length (B.getD i []) y)).sum

/-- Modelled from the spec: `bfgs(sp, B, s, y_new, y_old, work)`, the damped
BFGS update with Powell damping preserving positive-definiteness
(`casadi_bfgs` lives in the runtime headers, which are not under `src/`).
Curvature pair: `y = y_new − y_old`; damping blends `y` with `B s` whenever
`sᵀy < 0.2 · sᵀBs`; then the rank-two update
`B += y yᵀ / sᵀy − (B s)(B s)ᵀ / sᵀBs` is applied.  Dense model. -/
def casadi_bfgs (B : Mat) (s y_new y_old : List ℚ) : Mat :=
  let n := s.length
  let yk := casadi_axpy (-1) y_old y_new
  let qk := (List.range n).map (fun i => casadi_dot n (B.getD i []) s)
  let dxBkdx := casadi_dot n s qk
  let ydx := casadi_dot n s yk
  let omega : ℚ := if ydx < 1 / 5 * dxBkdx then 4 / 5 * dxBkdx / (dxBkdx - ydx) else 1
  let yk2 := casadi_axpy (1 - omega) qk (casadi_scal omega yk)
  let ydx2 := casadi_dot n s yk2
  (List.range n).map (fun i => (List.range n).map (fun j =>
    entry B i j + yk2.getD i 0 * yk2.getD j 0 / ydx2 - qk.getD i 0 * qk.getD j 0 / dxBkdx))

/-- Solver options fixed at `init` (`Sqpmethod::init`, defaults at lines 127–143). -/
structure Params where
  nx : ℕ
  ng : ℕ
  min_iter : Int
  max_iter : Int
  max_iter_ls : Int
  merit_memsize : Int
  lbfgs_memory : Int
  tol_pr : ℚ
  tol_du : ℚ
  c1 : ℚ
  beta : ℚ
  min_step_size : ℚ
  exact_hessian : Bool
  regularize : Bool
deriving DecidableEq

/-- Output of the callable `nlp_jac_fg`: `(f, ∇f, g, Jg)`. -/
structure JacOut where
  f : ℚ
  gf : List ℚ
  g : List ℚ
  Jk : Mat
deriving DecidableEq

/-- Output of the callable `nlp_fg`: `(f, g)`. -/
structure FgOut where
  f : ℚ
  g : List ℚ
deriving DecidableEq

/-- Output of the QP subsolver: a return code (which `Sqpmethod::solve_QP`
discards) and the primal/dual solutions written back into `dx`/`dlam`. -/
structure QPOut where
  rc : Int
  dx : List ℚ
  dlam : List ℚ
deriving DecidableEq

/-- Mutable per-solve state of `Sqpmethod::solve` (`SqpmethodMemory` plus the
`casadi_sqpmethod_data` buffers). -/
structure SqpState where
  z : List ℚ
  lam : List ℚ
  lbz : List ℚ
  ubz : List ℚ
  dx : List ℚ
  dlam : List ℚ
  gf : List ℚ
  gLag : List ℚ
  gLag_old : List ℚ
  Jk : Mat
  Bk : Mat
  merit_mem : List ℚ
  merit_ind : Int
  sigma : ℚ
  reg : ℚ
  f : ℚ
  t : ℚ
  iter_count : Int
  ls_iter : Int
  ls_success : Bool
  return_status : String
  success : Bool
  unified_ret_limited : Bool
deriving DecidableEq

/-- The injected callables, the QP subsolver and the user callback.
`none` models a non-zero return code of a callable. -/
structure Oracles where
  nlp_jac_fg : List ℚ → Option JacOut
  nlp_hess_l : List ℚ → List ℚ → Option Mat
  nlp_fg : List ℚ → Option FgOut
  qpsol : Mat → List ℚ → List ℚ → List ℚ → Mat → List ℚ → List ℚ → QPOut
  callback : SqpState → Bool

/-- Outcome of one main-loop iteration: continue looping, break out of the
loop (`solve` then returns 0), or abort with return code 1. -/
inductive StepRes where
  | cont (s : SqpState)
  | brk (s : SqpState)
  | fail (s : SqpState)
deriving DecidableEq

/-- The state carried by a `StepRes`. -/
def StepRes.state : StepRes → SqpState
  | .cont s => s
  | .brk s => s
  | .fail s => s

/-- Lines 290–301: refresh `f`, `gf`, `g` (into `z[nx:]`), `Jk` from
`nlp_jac_fg` and accumulate the Lagrangian gradient
`gLag = gf + Jkᵀ λ_g + λ_x`. -/
def jacUpdate (p : Params) (s : SqpState) (jo : JacOut) : SqpState :=
  { s with
    f := jo.f
    gf := jo.gf
    z := s.z.take p.nx ++ jo.g
    Jk := jo.Jk
    gLag := casadi_axpy 1 (s.lam.take p.nx) (mvT jo.Jk (s.lam.drop p.nx) jo.gf) }

/-- Lines 349–372: exact-Hessian evaluation with optional Gershgorin
regularization, or the BFGS initialization/update.  `none` models the
`return 1` on a failing `nlp_hess_l`.  Note that after a BFGS reset at
`iter_count % lbfgs_memory == 0` the `casadi_bfgs` update is still applied. -/
def hessStep (p : Params) (o : Oracles) (s : SqpState) : Option SqpState :=
  if p.exact_hessian then
    match o.nlp_hess_l (s.z.take p.nx) (s.lam.drop p.nx) with
    | none => none
    | some Bk =>
      if p.regularize then
        let reg := min 0 (-(casadi_lb_eig Bk))
        some { s with Bk := if reg > 0 then casadi_regularize Bk reg else Bk, reg := reg }
      else
        some { s with Bk := Bk }
  else if s.iter_count = 0 then
    some { s with Bk := idMat p.nx }
  else
    let Bprev := if s.iter_count % p.lbfgs_memory = 0 then idMat p.nx else s.Bk
    some { s with Bk := casadi_bfgs Bprev s.dx s.gLag s.gLag_old }

/-- Result of the line-search prologue (lines 410–425). -/
structure LsPrep where
  sigma : ℚ
  l1_infeas : ℚ
  F_sens : ℚ
  L1dir : ℚ
  L1merit : ℚ
  merit_mem : List ℚ
  merit_ind : Int
  meritmax : ℚ
deriving DecidableEq

/-- Lines 410–425: penalty update `σ := max(σ, 1.01‖dlam‖∞)`, directional
derivative and current merit, the write into the circular merit memory, the
cursor advance, and the non-monotone Armijo reference `meritmax`. -/
def lsPrep (p : Params) (s : SqpState) (dx dlam : List ℚ) : LsPrep :=
  let sigma := max s.sigma (101 / 100 * casadi_norm_inf (p.nx + p.ng) dlam)
  let l1_infeas := casadi_max_viol (p.nx + p.ng) s.z s.lbz s.ubz
  let F_sens := casadi_dot p.nx dx s.gf
  let L1dir := F_sens - sigma * l1_infeas
  let L1merit := s.f + sigma * l1_infeas
  let mem := s.merit_mem.set s.merit_ind.toNat L1merit
  let mi := (s.merit_ind + 1) % p.merit_memsize
  let meritmax := casadi_vfmax (mem.drop 1) (min p.merit_memsize s.iter_count - 1)
    (mem.getD 0 0)
  ⟨sigma, l1_infeas, F_sens, L1dir, L1merit, mem, mi, meritmax⟩

/-- Fixed context of the backtracking loop (lines 428–462). -/
structure LsCtx where
  x : List ℚ
  dx : List ℚ
  sigma : ℚ
  meritmax : ℚ
  L1dir : ℚ
  lbz : List ℚ
  ubz : List ℚ
deriving DecidableEq

/-- Outcome of one backtracking iteration: accept the current `t` (with the
line-search success flag), or backtrack and retry. -/
inductive LsOut where
  | accept (t : ℚ) (ls_iter : Int) (ok : Bool)
  | retry (t : ℚ) (ls_iter : Int)
deriving DecidableEq

/-- One iteration of the backtracking loop (lines 428–461): increment
`ls_iter`, form the candidate `x + t·dx`, evaluate `nlp_fg` (on failure,
`t := β t` and continue), test the non-monotone Armijo condition, accept on
exhaustion `ls_iter == max_iter_ls` with `ls_success = false`, else
`t := β t`. -/
def lsStep (p : Params) (o : Oracles) (c : LsCtx) (t : ℚ) (i : Int) : LsOut :=
  let i' := i + 1
  let x_cand := casadi_axpy t c.dx c.x
  match o.nlp_fg x_cand with
  | none => .retry (p.beta * t) i'
  | some fg =>
    let l1 := casadi_max_viol (p.nx + p.ng) (x_cand ++ fg.g) c.lbz c.ubz
    let L1merit_cand := fg.f + c.sigma * l1
    if L1merit_cand ≤ c.meritmax + t * p.c1 * c.L1dir then .accept t i' true
    else if i' = p.max_iter_ls then .accept t i' false
    else .retry (p.beta * t) i'

/-- Fuel-indexed backtracking loop; `none` means the fuel ran out. -/
def lsLoop (p : Params) (o : Oracles) (c : LsCtx) : ℕ → ℚ → Int → Option (ℚ × Int × Bool)
  | 0, _, _ => none
  | n + 1, t, i =>
    match lsStep p o c t i with
    | .accept t' i' ok => some (t', i', ok)
    | .retry t' i' => lsLoop p o c n t' i'

/-- The whole line search: the backtracking loop entered with `t = 1`,
`ls_iter = 0` (lines 398, 404, 428). -/
def lineSearch (p : Params) (o : Oracles) (c : LsCtx) (fuel : ℕ) : Option (ℚ × Int × Bool) :=
  lsLoop p o c fuel 1 0

/-- Lines 464–476, line-search branch: dual interpolation
`λ := (1−t)·λ + t·dlam` over all `nx+ng` slots, `dx := t·dx`, then the common
primal step `z[0:nx] += dx`. -/
def applyStepLS (p : Params) (t : ℚ) (dx dlam : List ℚ) (s : SqpState) : SqpState :=
  let lam := casadi_axpy t dlam (casadi_scal (1 - t) s.lam)
  let dx' := casadi_scal t dx
  { s with
    lam := lam
    dx := dx'
    z := casadi_axpy 1 dx' (s.z.take p.nx) ++ s.z.drop p.nx }

/-- Lines 470–476, full-step branch (`max_iter_ls == 0`): duals replaced by
`dlam` entirely, then the common primal step `z[0:nx] += dx`. -/
def applyStepFull (p : Params) (dx dlam : List ℚ) (s : SqpState) : SqpState :=
  { s with
    lam := dlam
    dx := dx
    dlam := dlam
    z := casadi_axpy 1 dx (s.z.take p.nx) ++ s.z.drop p.nx }

/-- Lines 478–483: for BFGS only, recompute `gLag_old` at the old `x` but the
updated multipliers. -/
def bfgsGlagOld (p : Params) (s : SqpState) : SqpState :=
  if p.exact_hessian then s
  else { s with gLag_old := casadi_axpy 1 (s.lam.take p.nx) (mvT s.Jk (s.lam.drop p.nx) s.gf) }

/-- Model of `Sqpmethod::solve_QP` (lines 509–534): pack the QP inputs, invoke the
subsolver, and read back the primal/dual solutions.  The subsolver's return
value `QPOut.rc` is discarded — `qpsol_(m->arg, m->res, m->iw, m->w, 0)` at
line 532 is a bare expression statement. -/
def solve_QP (o : Oracles) (H : Mat) (g lbdz ubdz : List ℚ) (A : Mat)
    (x_opt dlam : List ℚ) : List ℚ × List ℚ :=
  let q := o.qpsol H g lbdz ubdz A x_opt dlam
  (q.dx, q.dlam)

/-- Lines 349–483: everything after the convergence checks — Hessian step, QP
formulation (`lbdz = lbz − z`, `ubdz = ubz − z`, warm start `dlam = λ`,
`dx = 0`, `iter_count++`), the QP solve whose return code is discarded, the
indefiniteness diagnostic, the line search (or the full step when
`max_iter_ls == 0`) and the step application. -/
def afterChecks (p : Params) (o : Oracles) (lsFuel : ℕ) (s : SqpState) : Option StepRes :=
  match hessStep p o s with
  | none => some (.fail s)
  | some s2 =>
    let lbdz := casadi_axpy (-1) s2.z s2.lbz
    let ubdz := casadi_axpy (-1) s2.z s2.ubz
    let dlam0 := s2.lam
    let dx0 := List.replicate p.nx (0 : ℚ)
    let s3 := { s2 with iter_count := s2.iter_count + 1 }
    let q := solve_QP o s3.Bk s3.gf lbdz ubdz s3.Jk dx0 dlam0
    let gain := casadi_bilin s3.Bk q.1 q.1
    let _ := gain
    if p.max_iter_ls > 0 then
      let pre := lsPrep p s3 q.1 q.2
      let ctx : LsCtx := ⟨s3.z.take p.nx, q.1, pre.sigma, pre.meritmax, pre.L1dir,
        s3.lbz, s3.ubz⟩
      match lineSearch p o ctx lsFuel with
      | none => none
      | some (t, li, ok) =>
        let sPre := { s3 with
          sigma := pre.sigma
          merit_mem := pre.merit_mem
          merit_ind := pre.merit_ind
          dlam := q.2 }
        some (.cont (bfgsGlagOld p
          { applyStepLS p t q.1 q.2 sPre with t := t, ls_iter := li, ls_success := ok }))
    else
      some (.cont (bfgsGlagOld p (applyStepFull p q.1 q.2 s3)))

/-- One iteration of the main optimization loop (lines 288–484): evaluate
`nlp_jac_fg` (failure → return 1), compute the diagnostics, run the user
callback, apply the three convergence tests in order, then the rest of the
iteration. -/
def iterStep (p : Params) (o : Oracles) (lsFuel : ℕ) (s : SqpState) : Option StepRes :=
  match o.nlp_jac_fg (s.z.take p.nx) with
  | none => some (.fail s)
  | some jo =>
    let s1 := jacUpdate p s jo
    let pr_inf := casadi_max_viol (p.nx + p.ng) s1.z s1.lbz s1.ubz
    let du_inf := casadi_norm_inf p.nx s1.gLag
    let dx_norminf := casadi_norm_inf p.nx s1.dx
    if o.callback s1 then
      some (.brk { s1 with return_status := "User_Requested_Stop" })
    else if s1.iter_count ≥ p.min_iter ∧ pr_inf < p.tol_pr ∧ du_inf < p.tol_du then
      some (.brk { s1 with return_status := "Solve_Succeeded", success := true })
    else if s1.iter_count ≥ p.max_iter then
      some (.brk { s1 with return_status := "Maximum_Iterations_Exceeded",
                           unified_ret_limited := true })
    else if s1.iter_count ≥ 1 ∧ s1.iter_count ≥ p.min_iter ∧ dx_norminf ≤ p.min_step_size then
      some (.brk { s1 with return_status := "Search_Direction_Becomes_Too_Small" })
    else
      afterChecks p o lsFuel s1

/-- The main optimization loop, fuel-indexed; `some (rc, s)` is the return
code of `Sqpmethod::solve` together with the final state, `none` means the
fuel ran out.  A loop break returns 0; an evaluation failure returns 1. -/
def solveLoop (p : Params) (o : Oracles) : ℕ → ℕ → SqpState → Option (Int × SqpState)
  | 0, _, _ => none
  | n + 1, lsFuel, s =>
    match iterStep p o lsFuel s with
    | none => none
    | some (.fail s') => some (1, s')
    | some (.brk s') => some (0, s')
    | some (.cont s') => solveLoop p o n lsFuel s'

/-- Lines 266–285: the per-solve reset (`iter_count = 0`, `merit_ind = 0`,
`sigma = 0`, `reg = 0`, `t = 0`, `ls_iter = 0`, `ls_success = true`,
`dx` zero-filled). -/
def solveInit (p : Params) (s : SqpState) : SqpState :=
  { s with
    iter_count := 0
    merit_ind := 0
    sigma := 0
    reg := 0
    t := 0
    ls_iter := 0
    ls_success := true
    dx := List.replicate p.nx (0 : ℚ) }

/-- Model of `Sqpmethod::solve`: reset, then the main loop. -/
def sqpSolve (p : Params) (o : Oracles) (fuel lsFuel : ℕ) (s : SqpState) :
    Option (Int × SqpState) :=
  solveLoop p o fuel lsFuel (solveInit p s)

/-! ## Helper lemmas on folds and list indexing -/

theorem le_foldl_max (l : List ℚ) (a : ℚ) : a ≤ l.foldl max a := by
  induction l generalizing a with
  | nil => exact le_refl a
  | cons x t ih => exact le_trans (le_max_left a x) (ih (max a x))

theorem mem_le_foldl_max : ∀ (l : List ℚ) (a x : ℚ), x ∈ l → x ≤ l.foldl max a
  | [], _, x, hx => absurd hx (List.not_mem_nil x)
  | y :: t, a, x, hx => by
    rcases List.mem_cons.mp hx with h | h
    · subst h
      exact le_trans (le_max_right a x) (le_foldl_max t (max a x))
    · exact mem_le_foldl_max t (max a y) x h

theorem foldl_max_attained : ∀ (l : List ℚ) (a : ℚ), l.foldl max a = a ∨ l.foldl max a ∈ l
  | [], _ => Or.inl rfl
  | y :: t, a => by
    rcases foldl_max_attained t (max a y) with h | h
    · rcases max_choice a y with h2 | h2
      · exact Or.inl (by rw [List.foldl_cons, h, h2])
      · refine Or.inr ?_
        rw [List.foldl_cons, h, h2]
        exact List.mem_cons_self y t
    · exact Or.inr (List.mem_cons_of_mem y h)

theorem getD_drop_one (l : List ℚ) (i : ℕ) : (l.drop 1).getD i 0 = l.getD (i + 1) 0 := by
  cases l <;> rfl

theorem getD_take_of_lt (l : List ℚ) : ∀ (n i : ℕ), i < n → (l.take n).getD i 0 = l.getD i 0 := by
  induction l with
  | nil => intro n i _; simp [List.take_nil]
  | cons x t ih =>
    intro n i h
    cases n with
    | zero => omega
    | succ n =>
      cases i with
      | zero => rfl
      | succ i => exact ih n i (Nat.lt_of_succ_lt_succ h)

theorem getD_eq_get_of_lt (l : List ℚ) : ∀ (i : ℕ) (h : i < l.length), l.getD i 0 = l.get ⟨i, h⟩ := by
  induction l with
  | nil => intro i hi; exact absurd hi (by simp)
  | cons x t ih =>
    intro i hi
    cases i with
    | zero => rfl
    | succ i => exact ih i (by simpa using hi)

theorem getD_mem_of_lt (l : List ℚ) (i : ℕ) (h : i < l.length) : l.getD i 0 ∈ l := by
  rw [getD_eq_get_of_lt l i h]
  exact l.get_mem i h

theorem getD_zipWith (f : ℚ → ℚ → ℚ) :
    ∀ (x y : List ℚ) (i : ℕ), i < x.length → i < y.length →
      (List.zipWith f x y).getD i 0 = f (x.getD i 0) (y.getD i 0)
  | [], _, i, hx, _ => by simp at hx
  | _ :: _, [], i, _, hy => by simp at hy
  | a :: x, b :: y, 0, _, _ => rfl
  | a :: x, b :: y, i + 1, hx, hy =>
    getD_zipWith f x y i (Nat.lt_of_succ_lt_succ hx) (Nat.lt_of_succ_lt_succ hy)

theorem getD_map (f : ℚ → ℚ) :
    ∀ (l : List ℚ) (i : ℕ), i < l.length → (l.map f).getD i 0 = f (l.getD i 0)
  | [], i, h => by simp at h
  | a :: l, 0, _ => rfl
  | a :: l, i + 1, h => getD_map f l i (Nat.lt_of_succ_lt_succ h)

theorem getD_append_left (r : List ℚ) :
    ∀ (l : List ℚ) (i : ℕ), i < l.length → (l ++ r).getD i 0 = l.getD i 0
  | [], i, h => by simp at h
  | a :: l, 0, _ => rfl
  | a :: l, i + 1, h => getD_append_left r l i (Nat.lt_of_succ_lt_succ h)

/-! ## Concrete fixtures for witnesses and counterexamples -/

/-- An all-empty state, base for the concrete fixtures. -/
def zeroState : SqpState where
  z := []
  lam := []
  lbz := []
  ubz := []
  dx := []
  dlam := []
  gf := []
  gLag := []
  gLag_old := []
  Jk := []
  Bk := []
  merit_mem := []
  merit_ind := 0
  sigma := 0
  reg := 0
  f := 0
  t := 0
  iter_count := 0
  ls_iter := 0
  ls_success := true
  return_status := ""
  success := false
  unified_ret_limited := false

/-- Concrete options: one variable, no constraints, source defaults otherwise. -/
def pW : Params where
  nx := 1
  ng := 0
  min_iter := 0
  max_iter := 50
  max_iter_ls := 3
  merit_memsize := 4
  lbfgs_memory := 10
  tol_pr := 1
  tol_du := 1
  c1 := 1/10000
  beta := 4/5
  min_step_size := 1/1000000
  exact_hessian := true
  regularize := false

/-- Concrete well-behaved oracles for the one-variable problem. -/
def oW : Oracles where
  nlp_jac_fg := fun _ => some ⟨0, [0], [], []⟩
  nlp_hess_l := fun _ _ => some [[1]]
  nlp_fg := fun _ => some ⟨0, []⟩
  qpsol := fun _ _ _ _ _ _ _ => ⟨0, [0], [0]⟩
  callback := fun _ => false

/-- Concrete initial state matching `pW`. -/
def sW : SqpState :=
  { zeroState with
    z := [0]
    lam := [0]
    lbz := [-1]
    ubz := [1]
    merit_mem := [0, 0, 0, 0]
    dx := [0]
    gf := [0]
    gLag := [0]
    gLag_old := [0] }

/-- Options `pW` with regularization switched on (exact Hessian). -/
def pReg : Params := { pW with regularize := true }

/-- Oracles whose `nlp_hess_l` returns the positive-definite `[[2]]`. -/
def oReg : Oracles := { oW with nlp_hess_l := fun _ _ => some [[2]] }

/-- Options `pW` in limited-memory BFGS mode with `lbfgs_memory = 1`. -/
def pBfgs : Params := { pW with exact_hessian := false, lbfgs_memory := 1 }

/-- A state at iteration 1 with a nontrivial BFGS curvature pair. -/
def sBfgs : SqpState :=
  { sW with
    iter_count := 1
    dx := [1]
    gLag := [2]
    gLag_old := [0]
    Bk := [[5]] }

/-! ## C1 -/

/-- C1: the claim asserts `reg ≥ 0` with `reg > 0` exactly on a negative
Gershgorin bound, yet also that `reg = min(0, −lb_eig(Hsp, Bk))` — which is
what line 360 computes and is always ≤ 0.  At the concrete state below
(`regularize = true`, exact Hessian, `nlp_hess_l` returning the
positive-definite matrix `[[2]]`, Gershgorin lower bound `2 > 0`), the
Hessian step stores `reg = min(0, −2) = −2 < 0`, so the guard `reg > 0` at
line 361 can never fire and the invariant `reg ≥ 0` (hence `reg = 0` for a
positive-definite Hessian) fails: the code contradicts the spec's stated
intent, a slip the spec itself records (intended `fmax`). -/
theorem sqp_reg_formula_eval :
    casadi_lb_eig [[2]] = 2 ∧
    (hessStep pReg oReg sW).map SqpState.reg = some (-2) ∧
    ¬ (0 : ℚ) ≤ -2 := by
  refine ⟨by with_unfolding_all rfl, by with_unfolding_all rfl, by norm_num⟩

/-! ## C2 -/

/-- C2 counterexample: in limited-memory mode with `lbfgs_memory = 1`, at
iteration 1 with curvature pair `dx = [1]`, `gLag = [2]`, `gLag_old = [0]`,
the Hessian step resets `Bk` to the identity but then applies the damped BFGS
update (line 371 runs after the reset of line 369), leaving `Bk = [[2]]` —
not the identity — at the point where the QP is formed. -/
theorem sqp_bfgs_identity_cex :
    pBfgs.exact_hessian = false ∧ pBfgs.lbfgs_memory = 1 ∧
    (hessStep pBfgs oW sBfgs).map SqpState.Bk = some [[2]] ∧
    idMat pBfgs.nx = [[1]] ∧ ([[2]] : Mat) ≠ [[1]] := by
  refine ⟨rfl, rfl, by with_unfolding_all rfl, by with_unfolding_all rfl, by norm_num⟩

/-- C2 amended: with `hessian_approximation = "limited-memory"`, `Bk` is reset
to the identity at iteration 0 and at every iteration `k > 0` with
`k mod lbfgs_memory == 0`, but for every `k ≥ 1` the damped BFGS update is
applied after the (possible) reset; hence with `lbfgs_memory = 1` the matrix
at QP formation is the BFGS update of the identity — equal to the identity
only at iteration 0. -/
theorem sqp_bfgs_reset_then_update (p : Params) (o : Oracles) (s : SqpState)
    (hx : p.exact_hessian = false) :
    (s.iter_count = 0 → hessStep p o s = some { s with Bk := idMat p.nx }) ∧
    (s.iter_count ≠ 0 → s.iter_count % p.lbfgs_memory = 0 →
      hessStep p o s = some { s with Bk := casadi_bfgs (idMat p.nx) s.dx s.gLag s.gLag_old }) ∧
    (s.iter_count ≠ 0 → s.iter_count % p.lbfgs_memory ≠ 0 →
      hessStep p o s = some { s with Bk := casadi_bfgs s.Bk s.dx s.gLag s.gLag_old }) := by
  refine ⟨fun h0 => by simp [hessStep, hx, h0], fun h0 hm => ?_, fun h0 hm => ?_⟩
  · simp [hessStep, hx, h0, hm]
  · simp [hessStep, hx, h0, hm]

/-- C2 witness: the amended statement applied at the concrete fixture
(iteration 1, `lbfgs_memory = 1`). -/
theorem sqp_bfgs_reset_then_update_witness :
    hessStep pBfgs oW sBfgs =
      some { sBfgs with Bk := casadi_bfgs (idMat pBfgs.nx) sBfgs.dx sBfgs.gLag sBfgs.gLag_old } :=
  (sqp_bfgs_reset_then_update pBfgs oW sBfgs rfl).2.1 (by decide) (by decide)

/-! ## C4 -/

/-- The `ls_iter` value carried by a line-search outcome. -/
def LsOut.counter : LsOut → Int
  | .accept _ i _ => i
  | .retry _ i => i

/-- C4: the line search starts at `t = 1` (and `ls_iter = 0`), and every
backtracking iteration either (a) accepts the current `t` because the
candidate merit satisfies the non-monotone Armijo bound
`M_cand ≤ meritmax + t·c1·L1dir`, or (b) accepts with `ls_success = false`
because the incremented counter equals `max_iter_ls`, or (c) multiplies `t`
by `beta` exactly once and retries — no other change to `t` occurs between
checks (a failing `nlp_fg` evaluation also falls in case (c)). -/
theorem sqp_ls_step_trichotomy (p : Params) (o : Oracles) (c : LsCtx) :
    (∀ fuel : ℕ, lineSearch p o c fuel = lsLoop p o c fuel 1 0) ∧
    ∀ (t : ℚ) (i : Int),
      (∃ fg, o.nlp_fg (casadi_axpy t c.dx c.x) = some fg ∧
        fg.f + c.sigma *
            casadi_max_viol (p.nx + p.ng) (casadi_axpy t c.dx c.x ++ fg.g) c.lbz c.ubz
          ≤ c.meritmax + t * p.c1 * c.L1dir ∧
        lsStep p o c t i = .accept t (i + 1) true) ∨
      (i + 1 = p.max_iter_ls ∧ lsStep p o c t i = .accept t (i + 1) false) ∨
      (lsStep p o c t i = .retry (p.beta * t) (i + 1)) := by
  refine ⟨fun _ => rfl, fun t i => ?_⟩
  rcases hfg : o.nlp_fg (casadi_axpy t c.dx c.x) with _ | fg
  · exact Or.inr (Or.inr (by simp [lsStep, hfg]))
  · by_cases hA : fg.f + c.sigma *
        casadi_max_viol (p.nx + p.ng) (casadi_axpy t c.dx c.x ++ fg.g) c.lbz c.ubz
      ≤ c.meritmax + t * p.c1 * c.L1dir
    · exact Or.inl ⟨fg, rfl, hA, by simp [lsStep, hfg, hA]⟩
    · by_cases hE : i + 1 = p.max_iter_ls
      · exact Or.inr (Or.inl ⟨hE, by simp [lsStep, hfg, hA, hE]⟩)
      · exact Or.inr (Or.inr (by simp [lsStep, hfg, hA, hE]))

/-! ## C10 -/

theorem lsLoop_isSome_of_fg_total (p : Params) (o : Oracles) (c : LsCtx)
    (hsucc : ∀ x, (o.nlp_fg x).isSome) :
    ∀ (fuel : ℕ) (t : ℚ) (i : Int), i < p.max_iter_ls → p.max_iter_ls ≤ i + fuel →
      (lsLoop p o c fuel t i).isSome := by
  intro fuel
  induction fuel with
  | zero => intro t i h1 h2; omega
  | succ n ih =>
    intro t i h1 h2
    rcases hfg : o.nlp_fg (casadi_axpy t c.dx c.x) with _ | fg
    · have := hsucc (casadi_axpy t c.dx c.x)
      rw [hfg] at this
      simp at this
    · by_cases hA : fg.f + c.sigma *
          casadi_max_viol (p.nx + p.ng) (casadi_axpy t c.dx c.x ++ fg.g) c.lbz c.ubz
        ≤ c.meritmax + t * p.c1 * c.L1dir
      · simp [lsLoop, lsStep, hfg, hA]
      · by_cases hE : i + 1 = p.max_iter_ls
        · simp [lsLoop, lsStep, hfg, hA, hE]
        · have : lsLoop p o c (n + 1) t i = lsLoop p o c n (p.beta * t) (i + 1) := by
            simp [lsLoop, lsStep, hfg, hA, hE]
          rw [this]
          exact ih (p.beta * t) (i + 1) (by omega) (by omega)

/-- C10: whenever every `nlp_fg` evaluation succeeds, the backtracking loop
started at `ls_iter = 0` terminates within `max_iter_ls` iterations — each
iteration increments `ls_iter` exactly once, and the exhaustion test
`ls_iter == max_iter_ls` forces acceptance.  (The bound is conditional on
evaluation success: a failing `nlp_fg` also increments `ls_iter` but jumps
past the equality test, which the unconditional counter conjunct records.) -/
theorem sqp_ls_bounded_iterations (p : Params) (o : Oracles) (c : LsCtx)
    (hsucc : ∀ x, (o.nlp_fg x).isSome) (hpos : 0 < p.max_iter_ls) :
    (lineSearch p o c p.max_iter_ls.toNat).isSome ∧
    ∀ (t : ℚ) (i : Int), (lsStep p o c t i).counter = i + 1 := by
  constructor
  · exact lsLoop_isSome_of_fg_total p o c hsucc p.max_iter_ls.toNat 1 0 hpos (by omega)
  · intro t i
    rcases hfg : o.nlp_fg (casadi_axpy t c.dx c.x) with _ | fg
    · simp [lsStep, hfg, LsOut.counter]
    · by_cases hA : fg.f + c.sigma *
          casadi_max_viol (p.nx + p.ng) (casadi_axpy t c.dx c.x ++ fg.g) c.lbz c.ubz
        ≤ c.meritmax + t * p.c1 * c.L1dir
      · simp [lsStep, hfg, hA, LsOut.counter]
      · by_cases hE : i + 1 = p.max_iter_ls
        · simp [lsStep, hfg, hA, hE, LsOut.counter]
        · simp [lsStep, hfg, hA, hE, LsOut.counter]

/-- A concrete line-search context for the witnesses. -/
def ctxW : LsCtx where
  x := [0]
  dx := [0]
  sigma := 0
  meritmax := 0
  L1dir := 0
  lbz := [-1]
  ubz := [1]

/-- C10 witness: the bounded-termination statement applied at the concrete
one-variable fixture, where every `nlp_fg` evaluation succeeds. -/
theorem sqp_ls_bounded_iterations_witness :
    (lineSearch pW oW ctxW pW.max_iter_ls.toNat).isSome ∧
    ∀ (t : ℚ) (i : Int), (lsStep pW oW ctxW t i).counter = i + 1 :=
  sqp_ls_bounded_iterations pW oW ctxW (fun _ => rfl) (by decide)

/-! ## C5 -/

theorem casadi_vfmax_ge_acc (v : List ℚ) (n : Int) (acc : ℚ) : acc ≤ casadi_vfmax v n acc :=
  le_foldl_max _ _

theorem casadi_vfmax_ge (v : List ℚ) (n : Int) (acc : ℚ) (i : ℕ)
    (hi : i < n.toNat) (hl : i < v.length) : v.getD i 0 ≤ casadi_vfmax v n acc := by
  apply mem_le_foldl_max
  rw [← getD_take_of_lt v n.toNat i hi]
  apply getD_mem_of_lt
  simp only [List.length_take]
  omega

theorem casadi_vfmax_attained (v : List ℚ) (n : Int) (acc : ℚ) :
    casadi_vfmax v n acc = acc ∨
      ∃ i : ℕ, i < n.toNat ∧ i < v.length ∧ casadi_vfmax v n acc = v.getD i 0 := by
  rcases foldl_max_attained (v.take n.toNat) acc with h | h
  · exact Or.inl h
  · obtain ⟨⟨j, hj⟩, hval⟩ := List.mem_iff_get.mp h
    have hjt : j < n.toNat := by simp only [List.length_take] at hj; omega
    have hjv : j < v.length := by simp only [List.length_take] at hj; omega
    refine Or.inr ⟨j, hjt, hjv, ?_⟩
    rw [show casadi_vfmax v n acc = (v.take n.toNat).get ⟨j, hj⟩ from hval.symm]
    rw [← getD_eq_get_of_lt _ j hj, getD_take_of_lt v n.toNat j hjt]

/-- C5: in every line-search prologue the current merit value `L1merit` is
written into `merit_mem` at index `merit_ind` and the cursor advances to
`(merit_ind + 1) mod merit_memsize`; the Armijo reference is exactly
`vfmax(merit_mem+1, min(merit_memsize, iter_count) − 1, merit_mem[0])`, which
is the maximum of the seed `merit_mem[0]` and the window entries
`merit_mem[1 .. min(merit_memsize, iter_count) − 1]`, and is attained by one
of them. -/
theorem sqp_merit_window (p : Params) (s : SqpState) (dx dlam : List ℚ)
    (hlen : s.merit_mem.length = p.merit_memsize.toNat)
    (hmi : 0 ≤ s.merit_ind) (hmilt : s.merit_ind < p.merit_memsize)
    (hiter : 1 ≤ s.iter_count) :
    (lsPrep p s dx dlam).merit_mem
        = s.merit_mem.set s.merit_ind.toNat (lsPrep p s dx dlam).L1merit ∧
    (lsPrep p s dx dlam).merit_ind = (s.merit_ind + 1) % p.merit_memsize ∧
    (lsPrep p s dx dlam).meritmax
        = casadi_vfmax ((lsPrep p s dx dlam).merit_mem.drop 1)
            (min p.merit_memsize s.iter_count - 1)
            ((lsPrep p s dx dlam).merit_mem.getD 0 0) ∧
    (lsPrep p s dx dlam).merit_mem.getD 0 0 ≤ (lsPrep p s dx dlam).meritmax ∧
    (∀ i : ℕ, 1 ≤ i → (i : Int) ≤ min p.merit_memsize s.iter_count - 1 →
        (lsPrep p s dx dlam).merit_mem.getD i 0 ≤ (lsPrep p s dx dlam).meritmax) ∧
    ((lsPrep p s dx dlam).meritmax = (lsPrep p s dx dlam).merit_mem.getD 0 0 ∨
      ∃ i : ℕ, 1 ≤ i ∧ (i : Int) ≤ min p.merit_memsize s.iter_count - 1 ∧
        (lsPrep p s dx dlam).meritmax = (lsPrep p s dx dlam).merit_mem.getD i 0) := by
  have hmm : (lsPrep p s dx dlam).merit_mem
      = s.merit_mem.set s.merit_ind.toNat (lsPrep p s dx dlam).L1merit := rfl
  have hmmlen : (lsPrep p s dx dlam).merit_mem.length = p.merit_memsize.toNat := by
    rw [hmm, List.length_set, hlen]
  have hM1 : 1 ≤ p.merit_memsize := by omega
  have hk0 : 0 ≤ min p.merit_memsize s.iter_count - 1 := by omega
  refine ⟨rfl, rfl, rfl, casadi_vfmax_ge_acc _ _ _, ?_, ?_⟩
  · intro i h1 h2
    have hiM : i < p.merit_memsize.toNat := by omega
    have hstep : ((lsPrep p s dx dlam).merit_mem.drop 1).getD (i - 1) 0
        = (lsPrep p s dx dlam).merit_mem.getD i 0 := by
      rw [getD_drop_one]
      congr 1
      omega
    have hbound := casadi_vfmax_ge ((lsPrep p s dx dlam).merit_mem.drop 1)
      (min p.merit_memsize s.iter_count - 1) ((lsPrep p s dx dlam).merit_mem.getD 0 0)
      (i - 1) (by omega) (by simp only [List.length_drop, hmmlen]; omega)
    rw [hstep] at hbound
    exact hbound
  · rcases casadi_vfmax_attained ((lsPrep p s dx dlam).merit_mem.drop 1)
        (min p.merit_memsize s.iter_count - 1)
        ((lsPrep p s dx dlam).merit_mem.getD 0 0) with h | ⟨j, hjk, hjl, hval⟩
    · exact Or.inl h
    · refine Or.inr ⟨j + 1, by omega, by omega, ?_⟩
      rw [show (lsPrep p s dx dlam).meritmax
          = ((lsPrep p s dx dlam).merit_mem.drop 1).getD j 0 from hval]
      rw [getD_drop_one]

/-- C5 witness: the merit-window statement applied at the concrete fixture
(iteration 1, window seeded with zeros): the seed bounds the reference. -/
theorem sqp_merit_window_witness :
    (lsPrep pW sBfgs [1] [1]).merit_mem.getD 0 0 ≤ (lsPrep pW sBfgs [1] [1]).meritmax :=
  (sqp_merit_window pW sBfgs [1] [1] rfl (by decide) (by decide) (by decide)).2.2.2.1

/-! ## C8 -/

/-- C8: when the line search is active and ends with step fraction `t`, the
duals become `λ := (1−t)·λ + t·dlam` over all slots, `dx` is scaled to
`t·dx`, and the primal slots receive `x += t·dx`; when `max_iter_ls = 0` the
line search is bypassed, the duals are replaced by `dlam` entirely, the full
step is added to `x`, and `afterChecks` takes exactly this full-step path. -/
theorem sqp_step_application (p : Params) :
    (∀ (t : ℚ) (dx dlam : List ℚ) (s : SqpState) (i : ℕ),
        i < s.lam.length → i < dlam.length →
        (applyStepLS p t dx dlam s).lam.getD i 0
          = (1 - t) * s.lam.getD i 0 + t * dlam.getD i 0) ∧
    (∀ (t : ℚ) (dx dlam : List ℚ) (s : SqpState) (i : ℕ), i < dx.length →
        (applyStepLS p t dx dlam s).dx.getD i 0 = t * dx.getD i 0) ∧
    (∀ (t : ℚ) (dx dlam : List ℚ) (s : SqpState) (i : ℕ),
        i < p.nx → i < dx.length → i < s.z.length →
        (applyStepLS p t dx dlam s).z.getD i 0 = s.z.getD i 0 + t * dx.getD i 0) ∧
    (∀ (dx dlam : List ℚ) (s : SqpState),
        (applyStepFull p dx dlam s).lam = dlam ∧ (applyStepFull p dx dlam s).dx = dx) ∧
    (∀ (dx dlam : List ℚ) (s : SqpState) (i : ℕ),
        i < p.nx → i < dx.length → i < s.z.length →
        (applyStepFull p dx dlam s).z.getD i 0 = s.z.getD i 0 + dx.getD i 0) ∧
    (∀ (o : Oracles) (lsFuel : ℕ) (s s2 : SqpState), ¬ p.max_iter_ls > 0 →
        hessStep p o s = some s2 →
        afterChecks p o lsFuel s = some (.cont (bfgsGlagOld p (applyStepFull p
          (solve_QP o s2.Bk s2.gf (casadi_axpy (-1) s2.z s2.lbz)
            (casadi_axpy (-1) s2.z s2.ubz) s2.Jk (List.replicate p.nx 0) s2.lam).1
          (solve_QP o s2.Bk s2.gf (casadi_axpy (-1) s2.z s2.lbz)
            (casadi_axpy (-1) s2.z s2.ubz) s2.Jk (List.replicate p.nx 0) s2.lam).2
          { s2 with iter_count := s2.iter_count + 1 })))) := by
  refine ⟨?_, ?_, ?_, ?_, ?_, ?_⟩
  · intro t dx dlam s i hl hd
    show (casadi_axpy t dlam (casadi_scal (1 - t) s.lam)).getD i 0 = _
    unfold casadi_axpy casadi_scal
    rw [getD_zipWith _ _ _ i hd (by simp only [List.length_map]; exact hl)]
    rw [getD_map _ _ i hl]
  · intro t dx dlam s i hd
    show (casadi_scal t dx).getD i 0 = _
    unfold casadi_scal
    rw [getD_map _ _ i hd]
  · intro t dx dlam s i hnx hd hz
    show ((casadi_axpy 1 (casadi_scal t dx) (s.z.take p.nx)) ++ s.z.drop p.nx).getD i 0 = _
    unfold casadi_axpy casadi_scal
    rw [getD_append_left]
    · rw [getD_zipWith _ _ _ i (by simp only [List.length_map]; exact hd)
        (by simp only [List.length_take]; omega)]
      rw [getD_map _ _ i hd, getD_take_of_lt _ _ _ hnx]
      ring
    · simp only [List.length_zipWith, List.length_map, List.length_take]
      omega
  · exact fun dx dlam s => ⟨rfl, rfl⟩
  · intro dx dlam s i hnx hd hz
    show ((casadi_axpy 1 dx (s.z.take p.nx)) ++ s.z.drop p.nx).getD i 0 = _
    unfold casadi_axpy
    rw [getD_append_left]
    · rw [getD_zipWith _ _ _ i hd (by simp only [List.length_take]; omega)]
      rw [getD_take_of_lt _ _ _ hnx]
      ring
    · simp only [List.length_zipWith, List.length_take]
      omega
  · intro o lsFuel s s2 hls hhess
    simp only [afterChecks, hhess, if_neg hls]

/-- C8 witness: the dual-interpolation formula at a concrete slot. -/
theorem sqp_step_application_witness :
    (applyStepLS pW (1/2) [1] [2] sW).lam.getD 0 0
      = (1 - 1/2) * sW.lam.getD 0 0 + 1/2 * [(2 : ℚ)].getD 0 0 :=
  (sqp_step_application pW).1 (1/2) [1] [2] sW 0 (by decide) (by decide)

/-! ## Invariant lemmas for the main loop -/

theorem bfgsGlagOld_pres (p : Params) (s : SqpState) :
    (bfgsGlagOld p s).return_status = s.return_status ∧
    (bfgsGlagOld p s).success = s.success ∧
    (bfgsGlagOld p s).sigma = s.sigma := by
  unfold bfgsGlagOld
  split <;> exact ⟨rfl, rfl, rfl⟩

theorem hessStep_pres (p : Params) (o : Oracles) (s s2 : SqpState)
    (h : hessStep p o s = some s2) :
    s2.return_status = s.return_status ∧ s2.success = s.success ∧ s2.sigma = s.sigma := by
  unfold hessStep at h
  split at h
  · split at h
    · simp at h
    · split at h <;> (simp only [Option.some.injEq] at h; subst h; exact ⟨rfl, rfl, rfl⟩)
  · split at h
    · simp only [Option.some.injEq] at h
      subst h
      exact ⟨rfl, rfl, rfl⟩
    · simp only [Option.some.injEq] at h
      subst h
      exact ⟨rfl, rfl, rfl⟩

theorem afterChecks_inv (p : Params) (o : Oracles) (lsFuel : ℕ) (s : SqpState) (r : StepRes)
    (h : afterChecks p o lsFuel s = some r) :
    (∀ s'', r ≠ .brk s'') ∧ r.state.return_status = s.return_status ∧
    r.state.success = s.success ∧ s.sigma ≤ r.state.sigma := by
  unfold afterChecks at h
  split at h
  · simp only [Option.some.injEq] at h
    subst h
    exact ⟨fun s'' hc => StepRes.noConfusion hc, rfl, rfl, le_refl _⟩
  case _ s2 heq =>
    obtain ⟨hst, hsc, hsg⟩ := hessStep_pres p o s s2 heq
    dsimp only [] at h
    split at h
    · split at h
      · simp at h
      case _ t li ok heq2 =>
        simp only [Option.some.injEq] at h
        subst h
        refine ⟨fun s'' hc => StepRes.noConfusion hc, ?_, ?_, ?_⟩
        · simp only [StepRes.state]
          rw [(bfgsGlagOld_pres p _).1]
          exact hst
        · simp only [StepRes.state]
          rw [(bfgsGlagOld_pres p _).2.1]
          exact hsc
        · simp only [StepRes.state]
          rw [(bfgsGlagOld_pres p _).2.2]
          exact le_trans (le_of_eq hsg.symm) (le_max_left _ _)
    · simp only [Option.some.injEq] at h
      subst h
      refine ⟨fun s'' hc => StepRes.noConfusion hc, ?_, ?_, ?_⟩
      · simp only [StepRes.state]
        rw [(bfgsGlagOld_pres p _).1]
        exact hst
      · simp only [StepRes.state]
        rw [(bfgsGlagOld_pres p _).2.1]
        exact hsc
      · simp only [StepRes.state]
        rw [(bfgsGlagOld_pres p _).2.2]
        exact le_of_eq hsg.symm

theorem iterStep_inv (p : Params) (o : Oracles) (lsF : ℕ) (s : SqpState) (r : StepRes)
    (h : iterStep p o lsF s = some r) : s.sigma ≤ r.state.sigma := by
  unfold iterStep at h
  split at h
  · simp only [Option.some.injEq] at h
    subst h
    exact le_refl _
  case _ jo heq =>
    dsimp only [] at h
    split at h
    · simp only [Option.some.injEq] at h
      subst h
      exact le_refl _
    · split at h
      · simp only [Option.some.injEq] at h
        subst h
        exact le_refl _
      · split at h
        · simp only [Option.some.injEq] at h
          subst h
          exact le_refl _
        · split at h
          · simp only [Option.some.injEq] at h
            subst h
            exact le_refl _
          · exact (afterChecks_inv p o lsF (jacUpdate p s jo) r h).2.2.2

theorem iterStep_not_brk_pres (p : Params) (o : Oracles) (lsF : ℕ) (s : SqpState) (r : StepRes)
    (h : iterStep p o lsF s = some r) (hnb : ∀ s'', r ≠ .brk s'') :
    r.state.return_status = s.return_status ∧ r.state.success = s.success := by
  unfold iterStep at h
  split at h
  · simp only [Option.some.injEq] at h
    subst h
    exact ⟨rfl, rfl⟩
  case _ jo heq =>
    dsimp only [] at h
    split at h
    · simp only [Option.some.injEq] at h
      exact absurd h.symm (hnb _)
    · split at h
      · simp only [Option.some.injEq] at h
        exact absurd h.symm (hnb _)
      · split at h
        · simp only [Option.some.injEq] at h
          exact absurd h.symm (hnb _)
        · split at h
          · simp only [Option.some.injEq] at h
            exact absurd h.symm (hnb _)
          · have hi := afterChecks_inv p o lsF (jacUpdate p s jo) r h
            exact ⟨hi.2.1, hi.2.2.1⟩

theorem iterStep_brk_inversion (p : Params) (o : Oracles) (lsF : ℕ) (s s' : SqpState)
    (h : iterStep p o lsF s = some (.brk s')) :
    ∃ jo, o.nlp_jac_fg (s.z.take p.nx) = some jo ∧
      ((o.callback (jacUpdate p s jo) = true ∧
        s' = { jacUpdate p s jo with return_status := "User_Requested_Stop" }) ∨
       (o.callback (jacUpdate p s jo) = false ∧
        ((jacUpdate p s jo).iter_count ≥ p.min_iter ∧
         casadi_max_viol (p.nx + p.ng) (jacUpdate p s jo).z (jacUpdate p s jo).lbz
           (jacUpdate p s jo).ubz < p.tol_pr ∧
         casadi_norm_inf p.nx (jacUpdate p s jo).gLag < p.tol_du) ∧
        s' = { jacUpdate p s jo with return_status := "Solve_Succeeded", success := true }) ∨
       (o.callback (jacUpdate p s jo) = false ∧
        ¬((jacUpdate p s jo).iter_count ≥ p.min_iter ∧
          casadi_max_viol (p.nx + p.ng) (jacUpdate p s jo).z (jacUpdate p s jo).lbz
            (jacUpdate p s jo).ubz < p.tol_pr ∧
          casadi_norm_inf p.nx (jacUpdate p s jo).gLag < p.tol_du) ∧
        (jacUpdate p s jo).iter_count ≥ p.max_iter ∧
        s' = { jacUpdate p s jo with return_status := "Maximum_Iterations_Exceeded", unified_ret_limited := true }) ∨
       (o.callback (jacUpdate p s jo) = false ∧
        ¬((jacUpdate p s jo).iter_count ≥ p.min_iter ∧
          casadi_max_viol (p.nx + p.ng) (jacUpdate p s jo).z (jacUpdate p s jo).lbz
            (jacUpdate p s jo).ubz < p.tol_pr ∧
          casadi_norm_inf p.nx (jacUpdate p s jo).gLag < p.tol_du) ∧
        ¬((jacUpdate p s jo).iter_count ≥ p.max_iter) ∧
        ((jacUpdate p s jo).iter_count ≥ 1 ∧ (jacUpdate p s jo).iter_count ≥ p.min_iter ∧
         casadi_norm_inf p.nx (jacUpdate p s jo).dx ≤ p.min_step_size) ∧
        s' = { jacUpdate p s jo with return_status := "Search_Direction_Becomes_Too_Small" })) := by
  unfold iterStep at h
  split at h
  · simp at h
  case _ jo heq =>
    refine ⟨jo, heq, ?_⟩
    dsimp only [] at h
    split at h
    case isTrue hcb =>
      simp only [Option.some.injEq, StepRes.brk.injEq] at h
      exact Or.inl ⟨hcb, h.symm⟩
    case isFalse hcb =>
      have hcb2 : o.callback (jacUpdate p s jo) = false := by simpa using hcb
      split at h
      case isTrue hc1 =>
        simp only [Option.some.injEq, StepRes.brk.injEq] at h
        exact Or.inr (Or.inl ⟨hcb2, hc1, h.symm⟩)
      case isFalse hc1 =>
        split at h
        case isTrue hc2 =>
          simp only [Option.some.injEq, StepRes.brk.injEq] at h
          exact Or.inr (Or.inr (Or.inl ⟨hcb2, hc1, hc2, h.symm⟩))
        case isFalse hc2 =>
          split at h
          case isTrue hc3 =>
            simp only [Option.some.injEq, StepRes.brk.injEq] at h
            exact Or.inr (Or.inr (Or.inr ⟨hcb2, hc1, hc2, hc3, h.symm⟩))
          case isFalse hc3 =>
            have hi := afterChecks_inv p o lsF (jacUpdate p s jo) (.brk s') h
            exact absurd rfl (hi.1 s')

theorem solveLoop_sigma (p : Params) (o : Oracles) (lsF : ℕ) :
    ∀ (fuel : ℕ) (s : SqpState) (rc : Int) (s' : SqpState),
      solveLoop p o fuel lsF s = some (rc, s') → s.sigma ≤ s'.sigma := by
  intro fuel
  induction fuel with
  | zero => intro s rc s' h; simp [solveLoop] at h
  | succ n ih =>
    intro s rc s' h
    unfold solveLoop at h
    rcases hi : iterStep p o lsF s with _ | r <;> rw [hi] at h
    · simp at h
    · cases r with
      | fail s2 =>
        simp only [Option.some.injEq, Prod.mk.injEq] at h
        obtain ⟨-, h2⟩ := h
        subst h2
        exact iterStep_inv p o lsF s _ hi
      | brk s2 =>
        simp only [Option.some.injEq, Prod.mk.injEq] at h
        obtain ⟨-, h2⟩ := h
        subst h2
        exact iterStep_inv p o lsF s _ hi
      | cont s2 =>
        exact le_trans (iterStep_inv p o lsF s _ hi) (ih s2 rc s' h)

theorem solveLoop_succeeded (p : Params) (o : Oracles) (lsF : ℕ) :
    ∀ (fuel : ℕ) (s s' : SqpState),
      solveLoop p o fuel lsF s = some (0, s') → s'.return_status = "Solve_Succeeded" →
      s'.success = true ∧ s'.iter_count ≥ p.min_iter ∧
      casadi_max_viol (p.nx + p.ng) s'.z s'.lbz s'.ubz < p.tol_pr ∧
      casadi_norm_inf p.nx s'.gLag < p.tol_du := by
  intro fuel
  induction fuel with
  | zero => intro s s' h; simp [solveLoop] at h
  | succ n ih =>
    intro s s' h hst
    unfold solveLoop at h
    rcases hi : iterStep p o lsF s with _ | r <;> rw [hi] at h
    · simp at h
    · cases r with
      | fail s2 =>
        simp only [Option.some.injEq, Prod.mk.injEq] at h
        exact absurd h.1 (by norm_num)
      | brk s2 =>
        simp only [Option.some.injEq, Prod.mk.injEq] at h
        obtain ⟨-, h2⟩ := h
        subst h2
        obtain ⟨jo, hjo, hcases⟩ := iterStep_brk_inversion p o lsF s s2 hi
        rcases hcases with ⟨hcb, rfl⟩ | ⟨hcb, hc, rfl⟩ | ⟨hcb, hn1, hc, rfl⟩ |
          ⟨hcb, hn1, hn2, hc, rfl⟩
        · have hx : "User_Requested_Stop" = "Solve_Succeeded" := hst
          exact absurd hx (by decide)
        · exact ⟨rfl, hc.1, hc.2.1, hc.2.2⟩
        · have hx : "Maximum_Iterations_Exceeded" = "Solve_Succeeded" := hst
          exact absurd hx (by decide)
        · have hx : "Search_Direction_Becomes_Too_Small" = "Solve_Succeeded" := hst
          exact absurd hx (by decide)
      | cont s2 => exact ih s2 s' h hst

theorem solveLoop_rc_cases (p : Params) (o : Oracles) (lsF : ℕ) :
    ∀ (fuel : ℕ) (s : SqpState) (rc : Int) (s' : SqpState),
      solveLoop p o fuel lsF s = some (rc, s') →
      (rc = 0 ∧ (s'.return_status = "Solve_Succeeded" ∨
        s'.return_status = "Maximum_Iterations_Exceeded" ∨
        s'.return_status = "Search_Direction_Becomes_Too_Small" ∨
        s'.return_status = "User_Requested_Stop")) ∨
      (rc = 1 ∧ s'.return_status = s.return_status ∧ s'.success = s.success) := by
  intro fuel
  induction fuel with
  | zero => intro s rc s' h; simp [solveLoop] at h
  | succ n ih =>
    intro s rc s' h
    unfold solveLoop at h
    rcases hi : iterStep p o lsF s with _ | r <;> rw [hi] at h
    · simp at h
    · cases r with
      | fail s2 =>
        simp only [Option.some.injEq, Prod.mk.injEq] at h
        obtain ⟨h1, h2⟩ := h
        subst h2
        have hp := iterStep_not_brk_pres p o lsF s _ hi (fun s'' hc => StepRes.noConfusion hc)
        exact Or.inr ⟨h1.symm, hp.1, hp.2⟩
      | brk s2 =>
        simp only [Option.some.injEq, Prod.mk.injEq] at h
        obtain ⟨h1, h2⟩ := h
        subst h2
        obtain ⟨jo, hjo, hcases⟩ := iterStep_brk_inversion p o lsF s s2 hi
        rcases hcases with ⟨hcb, rfl⟩ | ⟨hcb, hc, rfl⟩ | ⟨hcb, hn1, hc, rfl⟩ |
          ⟨hcb, hn1, hn2, hc, rfl⟩
        · exact Or.inl ⟨h1.symm, Or.inr (Or.inr (Or.inr rfl))⟩
        · exact Or.inl ⟨h1.symm, Or.inl rfl⟩
        · exact Or.inl ⟨h1.symm, Or.inr (Or.inl rfl)⟩
        · exact Or.inl ⟨h1.symm, Or.inr (Or.inr (Or.inl rfl))⟩
      | cont s2 =>
        rcases ih s2 rc s' h with hl | ⟨h1, h2, h3⟩
        · exact Or.inl hl
        · have hp := iterStep_not_brk_pres p o lsF s _ hi (fun s'' hc => StepRes.noConfusion hc)
          exact Or.inr ⟨h1, h2.trans hp.1, h3.trans hp.2⟩

/-! ## C3 -/

/-- C3: in every main-loop iteration the three convergence tests run in order
(after the callback): success test, iteration cap, stall test — each reached
only when the earlier ones failed, and each breaking with its status (the cap
additionally setting the unified `SOLVER_RET_LIMITED` flag); consequently a
solve that returns 0 with `return_status = "Solve_Succeeded"` terminated at a
state with `success = true`, `iter_count ≥ min_iter`, `pr_inf < tol_pr` and
`du_inf < tol_du`. -/
theorem sqp_convergence_tests (p : Params) (o : Oracles) (lsF : ℕ) :
    (∀ (s : SqpState) (jo : JacOut), o.nlp_jac_fg (s.z.take p.nx) = some jo →
      o.callback (jacUpdate p s jo) = false →
      (((jacUpdate p s jo).iter_count ≥ p.min_iter ∧
        casadi_max_viol (p.nx + p.ng) (jacUpdate p s jo).z (jacUpdate p s jo).lbz
          (jacUpdate p s jo).ubz < p.tol_pr ∧
        casadi_norm_inf p.nx (jacUpdate p s jo).gLag < p.tol_du) →
        iterStep p o lsF s = some (.brk
          { jacUpdate p s jo with return_status := "Solve_Succeeded", success := true })) ∧
      (¬((jacUpdate p s jo).iter_count ≥ p.min_iter ∧
        casadi_max_viol (p.nx + p.ng) (jacUpdate p s jo).z (jacUpdate p s jo).lbz
          (jacUpdate p s jo).ubz < p.tol_pr ∧
        casadi_norm_inf p.nx (jacUpdate p s jo).gLag < p.tol_du) →
        (jacUpdate p s jo).iter_count ≥ p.max_iter →
        iterStep p o lsF s = some (.brk
          { jacUpdate p s jo with return_status := "Maximum_Iterations_Exceeded", unified_ret_limited := true })) ∧
      (¬((jacUpdate p s jo).iter_count ≥ p.min_iter ∧
        casadi_max_viol (p.nx + p.ng) (jacUpdate p s jo).z (jacUpdate p s jo).lbz
          (jacUpdate p s jo).ubz < p.tol_pr ∧
        casadi_norm_inf p.nx (jacUpdate p s jo).gLag < p.tol_du) →
        ¬((jacUpdate p s jo).iter_count ≥ p.max_iter) →
        ((jacUpdate p s jo).iter_count ≥ 1 ∧ (jacUpdate p s jo).iter_count ≥ p.min_iter ∧
          casadi_norm_inf p.nx (jacUpdate p s jo).dx ≤ p.min_step_size) →
        iterStep p o lsF s = some (.brk
          { jacUpdate p s jo with return_status := "Search_Direction_Becomes_Too_Small" }))) ∧
    (∀ (fuel : ℕ) (s s' : SqpState), solveLoop p o fuel lsF s = some (0, s') →
      s'.return_status = "Solve_Succeeded" →
      s'.success = true ∧ s'.iter_count ≥ p.min_iter ∧
      casadi_max_viol (p.nx + p.ng) s'.z s'.lbz s'.ubz < p.tol_pr ∧
      casadi_norm_inf p.nx s'.gLag < p.tol_du) := by
  constructor
  · intro s jo heq hcb
    refine ⟨fun h1 => ?_, fun hn1 h2 => ?_, fun hn1 hn2 h3 => ?_⟩
    · unfold iterStep
      rw [heq]
      dsimp only []
      rw [if_neg (by simp [hcb]), if_pos h1]
    · unfold iterStep
      rw [heq]
      dsimp only []
      rw [if_neg (by simp [hcb]), if_neg hn1, if_pos h2]
    · unfold iterStep
      rw [heq]
      dsimp only []
      rw [if_neg (by simp [hcb]), if_neg hn1, if_neg hn2, if_pos h3]
  · exact solveLoop_succeeded p o lsF

/-- The final state of the concrete one-variable run: convergence at
iteration 0. -/
def sWfinal : SqpState :=
  { jacUpdate pW sW ⟨0, [0], [], []⟩ with return_status := "Solve_Succeeded", success := true }

/-- C3 witness: the loop-level consequence applied to the concrete run, which
converges at iteration 0 with status `Solve_Succeeded`. -/
theorem sqp_convergence_tests_witness :
    sWfinal.success = true ∧ sWfinal.iter_count ≥ pW.min_iter ∧
    casadi_max_viol (pW.nx + pW.ng) sWfinal.z sWfinal.lbz sWfinal.ubz < pW.tol_pr ∧
    casadi_norm_inf pW.nx sWfinal.gLag < pW.tol_du :=
  (sqp_convergence_tests pW oW 3).2 1 sW sWfinal (by with_unfolding_all rfl) rfl

/-! ## C6 -/

/-- C6: `sigma` is reset to 0 at `solve` entry, every main-loop iteration can
only keep or increase it (the single update site is
`σ := max(σ, 1.01‖dlam‖∞)`), and hence the sigma value at any loop exit
dominates the value at loop entry: the sequence of sigma values within one
solve is non-decreasing. -/
theorem sqp_sigma_monotone (p : Params) (o : Oracles) (lsF : ℕ) :
    (∀ s : SqpState, (solveInit p s).sigma = 0) ∧
    (∀ (s : SqpState) (r : StepRes), iterStep p o lsF s = some r → s.sigma ≤ r.state.sigma) ∧
    (∀ (fuel : ℕ) (s : SqpState) (rc : Int) (s' : SqpState),
        solveLoop p o fuel lsF s = some (rc, s') → s.sigma ≤ s'.sigma) :=
  ⟨fun _ => rfl, fun s r h => iterStep_inv p o lsF s r h, solveLoop_sigma p o lsF⟩

/-- C6 witness: monotonicity applied to the concrete run. -/
theorem sqp_sigma_monotone_witness : sW.sigma ≤ sWfinal.sigma :=
  (sqp_sigma_monotone pW oW 3).2.2 1 sW 0 sWfinal (by with_unfolding_all rfl)

/-! ## C7 -/

/-- C7: a failing `nlp_jac_fg` makes the iteration fail and `solve` return 1
immediately; with the exact Hessian a failing `nlp_hess_l` likewise aborts
the iteration (and any failing iteration makes the loop return 1 at once);
but a failing `nlp_fg` on a line-search candidate only multiplies the step
by `beta` and lets the backtracking loop continue with the candidate
rejected — no abort. -/
theorem sqp_eval_failure_disposition (p : Params) (o : Oracles) (lsF : ℕ) :
    (∀ (s : SqpState) (n : ℕ), o.nlp_jac_fg (s.z.take p.nx) = none →
        iterStep p o lsF s = some (.fail s) ∧ solveLoop p o (n + 1) lsF s = some (1, s)) ∧
    (∀ s : SqpState, p.exact_hessian = true →
        o.nlp_hess_l (s.z.take p.nx) (s.lam.drop p.nx) = none →
        hessStep p o s = none ∧ afterChecks p o lsF s = some (.fail s)) ∧
    (∀ (s s' : SqpState) (n : ℕ), iterStep p o lsF s = some (.fail s') →
        solveLoop p o (n + 1) lsF s = some (1, s')) ∧
    (∀ (c : LsCtx) (t : ℚ) (i : Int), o.nlp_fg (casadi_axpy t c.dx c.x) = none →
        lsStep p o c t i = .retry (p.beta * t) (i + 1) ∧
        ∀ fuel : ℕ, lsLoop p o c (fuel + 1) t i = lsLoop p o c fuel (p.beta * t) (i + 1)) := by
  refine ⟨fun s n hjac => ⟨?_, ?_⟩, fun s hex hh => ⟨?_, ?_⟩, fun s s' n hit => ?_,
    fun c t i hfg => ⟨?_, fun fuel => ?_⟩⟩
  · unfold iterStep
    rw [hjac]
  · have hstep : iterStep p o lsF s = some (.fail s) := by unfold iterStep; rw [hjac]
    unfold solveLoop
    rw [hstep]
  · simp [hessStep, hex, hh]
  · have hstep : hessStep p o s = none := by simp [hessStep, hex, hh]
    unfold afterChecks
    rw [hstep]
  · unfold solveLoop
    rw [hit]
  · simp [lsStep, hfg]
  · have hstep : lsStep p o c t i = .retry (p.beta * t) (i + 1) := by simp [lsStep, hfg]
    show (match lsStep p o c t i with
          | .accept t2 i2 ok => some (t2, i2, ok)
          | .retry t2 i2 => lsLoop p o c fuel t2 i2) = lsLoop p o c fuel (p.beta * t) (i + 1)
    rw [hstep]

/-- Oracles whose `nlp_jac_fg` always fails. -/
def oJacFail : Oracles := { oW with nlp_jac_fg := fun _ => none }

/-- C7 witness: a failing Jacobian evaluation at the concrete state makes the
solve return 1 with the state untouched. -/
theorem sqp_eval_failure_disposition_witness :
    iterStep pW oJacFail 3 sW = some (.fail sW) ∧
    solveLoop pW oJacFail 4 3 sW = some (1, sW) :=
  (sqp_eval_failure_disposition pW oJacFail 3).1 sW 3 rfl

/-! ## C9 -/

/-- An oracle bundle identical to `o` except that the QP subsolver's return
code is rewritten by `f`; the solutions it writes back are unchanged. -/
def withQPrc (o : Oracles) (f : Int → Int) : Oracles :=
  { o with qpsol := fun H g lb ub A x0 l0 =>
      let r := o.qpsol H g lb ub A x0 l0
      { r with rc := f r.rc } }

theorem lsLoop_withQPrc (p : Params) (o : Oracles) (f : Int → Int) (c : LsCtx) :
    ∀ (fuel : ℕ) (t : ℚ) (i : Int),
      lsLoop p (withQPrc o f) c fuel t i = lsLoop p o c fuel t i := by
  intro fuel
  induction fuel with
  | zero => intro t i; rfl
  | succ n ih =>
    intro t i
    have hL : lsLoop p (withQPrc o f) c (n + 1) t i
        = (match lsStep p o c t i with
           | .accept t2 i2 ok => some (t2, i2, ok)
           | .retry t2 i2 => lsLoop p (withQPrc o f) c n t2 i2) := rfl
    have hR : lsLoop p o c (n + 1) t i
        = (match lsStep p o c t i with
           | .accept t2 i2 ok => some (t2, i2, ok)
           | .retry t2 i2 => lsLoop p o c n t2 i2) := rfl
    rw [hL, hR]
    cases lsStep p o c t i with
    | accept t2 i2 ok => rfl
    | retry t2 i2 => exact ih t2 i2

theorem afterChecks_withQPrc (p : Params) (o : Oracles) (f : Int → Int) (lsF : ℕ)
    (s : SqpState) : afterChecks p (withQPrc o f) lsF s = afterChecks p o lsF s := by
  have h1 : hessStep p (withQPrc o f) s = hessStep p o s := rfl
  have h2 : ∀ H g lb ub A x0 l0,
      solve_QP (withQPrc o f) H g lb ub A x0 l0 = solve_QP o H g lb ub A x0 l0 :=
    fun _ _ _ _ _ _ _ => rfl
  have h4 : ∀ (c : LsCtx) (fuel : ℕ),
      lineSearch p (withQPrc o f) c fuel = lineSearch p o c fuel :=
    fun c fuel => lsLoop_withQPrc p o f c fuel 1 0
  unfold afterChecks
  rw [h1]
  cases hessStep p o s with
  | none => rfl
  | some s2 =>
    dsimp only []
    rw [h2, h4]

theorem iterStep_withQPrc (p : Params) (o : Oracles) (f : Int → Int) (lsF : ℕ)
    (s : SqpState) : iterStep p (withQPrc o f) lsF s = iterStep p o lsF s := by
  have hjac : (withQPrc o f).nlp_jac_fg = o.nlp_jac_fg := rfl
  unfold iterStep
  rw [hjac]
  cases o.nlp_jac_fg (s.z.take p.nx) with
  | none => rfl
  | some jo =>
    dsimp only []
    rw [show (withQPrc o f).callback = o.callback from rfl]
    rw [afterChecks_withQPrc p o f lsF (jacUpdate p s jo)]

/-- C9: the QP subsolver's return value is never inspected — rewriting it
arbitrarily changes nothing in the iteration (`solve_QP` discards it, the
SQP step proceeds unconditionally) — and the only way `solve` returns
non-zero is an `nlp_jac_fg`/`nlp_hess_l` evaluation failure, which leaves
`return_status` untouched; every exit by breaking out of the main loop
(success, iteration limit, stall, user stop) returns 0. -/
theorem sqp_qp_status_ignored (p : Params) (o : Oracles) (lsF : ℕ) :
    (∀ (f : Int → Int) (s : SqpState),
        iterStep p (withQPrc o f) lsF s = iterStep p o lsF s) ∧
    (∀ (fuel : ℕ) (s : SqpState) (rc : Int) (s' : SqpState),
        solveLoop p o fuel lsF s = some (rc, s') →
        (rc = 0 ∧ (s'.return_status = "Solve_Succeeded" ∨
          s'.return_status = "Maximum_Iterations_Exceeded" ∨
          s'.return_status = "Search_Direction_Becomes_Too_Small" ∨
          s'.return_status = "User_Requested_Stop")) ∨
        (rc = 1 ∧ s'.return_status = s.return_status ∧ s'.success = s.success)) :=
  ⟨fun f s => iterStep_withQPrc p o f lsF s, solveLoop_rc_cases p o lsF⟩

/-- C9 witness: the return-code dichotomy applied to the concrete successful
run (return code 0, status from a loop break). -/
theorem sqp_qp_status_ignored_witness :
    (0 = (0 : Int) ∧ (sWfinal.return_status = "Solve_Succeeded" ∨
      sWfinal.return_status = "Maximum_Iterations_Exceeded" ∨
      sWfinal.return_status = "Search_Direction_Becomes_Too_Small" ∨
      sWfinal.return_status = "User_Requested_Stop")) ∨
    (0 = (1 : Int) ∧ sWfinal.return_status = sW.return_status ∧
      sWfinal.success = sW.success) :=
  (sqp_qp_status_ignored pW oW 3).2 1 sW 0 sWfinal (by with_unfolding_all rfl)
